import Mathlib

/-!
Verification development for the `ast-utils` helper module of the Vendure CLI
(`packages/cli/src/utilities/ast-utils.ts`) and the admin-ui `LocaleDatePipe`
component.  The TypeScript sources are shallowly embedded below: pure string
functions become Lean functions on `String`/`List Char`, the mutable ts-morph
`SourceFile`/`Project` objects become records that the operations transform,
and the external collaborators (the `Intl` formatter, the filesystem, `new
Date` parsing) become explicit function arguments.

External library functions used by the source are modelled as follows:

* JS `String.prototype.replace(/\\/g, '/')` is a character map.
* JS `String.prototype.replace(/\/\//g, '/')` is a single left-to-right
  non-overlapping pass replacing each `//` by `/` (`collapseSlashes`).
* node `path.parse` (posix flavour, which is all that can be reached after the
  source has already replaced every backslash by `/`) is modelled by
  `posixParseDirName`, which mirrors node's `lib/path.js` scan: trailing
  slashes of the inspected region are dropped, the last component is the
  maximal slash-free suffix, `dir` is everything before the separating slash
  (or the root for absolute paths), and `name` is the component with its
  extension (text from the last dot onwards) removed, where a dot in first
  position starts no extension and a component equal to `..` keeps its dots
  unless it is the whole body of an absolute path.
* node `path.relative` is modelled for already-normalized absolute inputs
  (ts-morph file paths are absolute): split into segments, drop the common
  prefix, go up with `..` segments and descend into the remainder.
* node `path.join(a, b)` is modelled as `a ++ "/" ++ b` (resp. plain
  concatenation when `a` already ends with a slash); the `..`-collapsing
  normalization of `path.join`, which no claim exercises, is elided.
* JS truthiness of an optional string (`options.namespaceImport ? … : …`) is
  `strTruthy`: `undefined` and the empty string are falsy.
-/

/-! ### JS string primitives -/

/-- JS `filePath.replace(/\\/g, '/')`: replace every backslash by a forward
slash (a character-by-character map, since the pattern is one character). -/
def normalizeSeps (l : List Char) : List Char :=
  l.map (fun c => if c = '\\' then '/' else c)

/-- JS `s.replace(/\/\//g, '/')`: one left-to-right pass over the string,
replacing each non-overlapping occurrence of `//` by `/` and resuming the
scan after the replacement. -/
def collapseSlashes : List Char → List Char
  | [] => []
  | [c] => [c]
  | c :: d :: rest =>
    if c = '/' ∧ d = '/' then '/' :: collapseSlashes rest
    else c :: collapseSlashes (d :: rest)

/-- The string (as a character list) contains no two adjacent forward
slashes. -/
def NoDoubleSlash (l : List Char) : Prop :=
  l.Chain' (fun a b => ¬(a = '/' ∧ b = '/'))

/-- Executable check for `NoDoubleSlash`. -/
def noDoubleSlashB : List Char → Bool
  | [] => true
  | [_] => true
  | c :: d :: rest => !(c == '/' && d == '/') && noDoubleSlashB (d :: rest)

instance instDecNoDoubleSlash (l : List Char) : Decidable (NoDoubleSlash l) :=
  decidable_of_iff (noDoubleSlashB l = true) (by
    induction l with
    | nil => simp [noDoubleSlashB, NoDoubleSlash]
    | cons c rest ih =>
      cases rest with
      | nil => simp [noDoubleSlashB, NoDoubleSlash]
      | cons d rest2 =>
        rw [NoDoubleSlash, List.chain'_cons, noDoubleSlashB, Bool.and_eq_true]
        have hb : ((!(c == '/' && d == '/')) = true) ↔ ¬(c = '/' ∧ d = '/') := by
          rw [Bool.not_eq_true', Bool.and_eq_false_iff]
          simp [beq_eq_false_iff_ne]
          tauto
        rw [hb, ih]
        exact Iff.rfl)

/-- Drop the longest suffix of `l` all of whose characters satisfy `p`. -/
def dropTrailWhile (p : Char → Bool) (l : List Char) : List Char :=
  (l.reverse.dropWhile p).reverse

/-! ### node `path.parse` (posix), restricted to the `dir` and `name` fields
used by the source -/

/-- Index of the last `'.'` of a component, if any. -/
def lastDotIdx? (comp : List Char) : Option Nat :=
  (comp.enum.filterMap (fun p => if p.2 = '.' then some p.1 else none)).getLast?

/-- The `name` field of node `path.parse` for the last path component `comp`.
`dotsOK` records whether the `..`-special-case of node's scan can fire (it
cannot when the component is the whole body of an absolute path, because the
index comparison `startDot === startPart + 1` in node's code is then off by
one — node really returns `name = "."` for `parse('/..')`). -/
def componentName (comp : List Char) (dotsOK : Bool) : List Char :=
  match lastDotIdx? comp with
  | none => comp
  | some 0 => comp
  | some d => if comp = ['.', '.'] ∧ dotsOK then comp else comp.take d

/-- `dir` and `name` fields of node posix `path.parse`, mirroring the
right-to-left scan of node `lib/path.js`: the inspected region excludes the
root slash of an absolute path, trailing slashes are trimmed, the last
component is the maximal slash-free suffix of what remains, and `dir` is the
text before the separating slash (plus the root). -/
def posixParseDirName (s : List Char) : List Char × List Char :=
  match s with
  | [] => ([], [])
  | c0 :: rest =>
    let isAbs := c0 = '/'
    let root : List Char := if isAbs then ['/'] else []
    let body := if isAbs then rest else c0 :: rest
    let trimmed := dropTrailWhile (fun c => c = '/') body
    let revTrimmed := trimmed.reverse
    let revComp := revTrimmed.takeWhile (fun c => c ≠ '/')
    let beforeComp := revTrimmed.dropWhile (fun c => c ≠ '/')
    let comp := revComp.reverse
    let dir : List Char :=
      match beforeComp with
      | [] => root
      | _ :: revPre => root ++ revPre.reverse
    let name := componentName comp (decide (beforeComp ≠ []) || !isAbs)
    (dir, name)

/-- `convertPathToRelativeImport` from `ast-utils.ts`: normalize separators,
strip the extension via `path.parse`, prepend `./` and collapse double
slashes. -/
def convertPathToRelativeImport (filePath : String) : String :=
  let normalizedPath := normalizeSeps filePath.data
  let parsed := posixParseDirName normalizedPath
  ⟨collapseSlashes ('.' :: '/' :: (parsed.1 ++ '/' :: parsed.2))⟩

/-! ### node `path.relative`, for normalized absolute inputs -/

/-- Split a path into its (nonempty) `/`-separated segments. -/
def pathSegments (l : List Char) : List (List Char) :=
  (l.splitOn '/').filter (fun seg => seg ≠ [])

/-- Length of the common prefix of two segment lists. -/
def commonLen : List (List Char) → List (List Char) → Nat
  | a :: as, b :: bs => if a = b then commonLen as bs + 1 else 0
  | _, _ => 0

/-- node `path.relative(fromP, toP)` for already-normalized absolute paths:
walk up with `..` past the non-shared part of `fromP`, then descend into the
non-shared part of `toP`. -/
def posixRelative (fromP toP : String) : String :=
  let f := pathSegments fromP.data
  let t := pathSegments toP.data
  let c := commonLen f t
  ⟨(List.intercalate ['/'] (List.replicate (f.length - c) ['.', '.'] ++ t.drop c))⟩

/-- `getRelativeImportPath` from `ast-utils.ts`, after extracting the file
(resp. directory) paths of its two location arguments: note the source passes
`path.relative(toPath, fromPath)`, i.e. it computes the walk from `to`
towards `from`. -/
def getRelativeImportPath (fromPath toPath : String) : String :=
  convertPathToRelativeImport (posixRelative toPath fromPath)

/-! ### `kebabize` and the spec's two characterizations of it -/

/-- One piece per character of `kebabize`'s `split('').map((letter, idx) => …)`:
the JS callback body `letter.toUpperCase() === letter ? `${idx !== 0 ? '-' : ''}${letter.toLowerCase()}` : letter`. -/
def kebabizePieces (idx : Nat) : List Char → List Char
  | [] => []
  | c :: rest =>
    (if c.toUpper = c then (if idx ≠ 0 then ['-'] else []) ++ [c.toLower] else [c]) ++
      kebabizePieces (idx + 1) rest

/-- `kebabize` from `ast-utils.ts`. -/
def kebabize (str : String) : String :=
  ⟨kebabizePieces 0 str.data⟩

/-- Modelled from the spec (claim C3's wording): lowercase every character and
insert a `-` immediately before every uppercase character except in first
position.  "Uppercase character" is `Char.isUpper`, i.e. `A`–`Z`. -/
def kebabizeSpecUpperPieces (idx : Nat) : List Char → List Char
  | [] => []
  | c :: rest =>
    (if idx ≠ 0 ∧ c.isUpper then ['-'] else []) ++ [c.toLower] ++
      kebabizeSpecUpperPieces (idx + 1) rest

/-- String-level version of `kebabizeSpecUpperPieces`. -/
def kebabizeSpecUpper (str : String) : String :=
  ⟨kebabizeSpecUpperPieces 0 str.data⟩

/-- Modelled from claim C9's wording: lowercase every character and insert a
`-` immediately before every character (except in first position) that is
unchanged by uppercasing. -/
def kebabizeSpecEqUpperPieces (idx : Nat) : List Char → List Char
  | [] => []
  | c :: rest =>
    (if idx ≠ 0 ∧ c.toUpper = c then ['-'] else []) ++ [c.toLower] ++
      kebabizeSpecEqUpperPieces (idx + 1) rest

/-- String-level version of `kebabizeSpecEqUpperPieces`. -/
def kebabizeSpecEqUpper (str : String) : String :=
  ⟨kebabizeSpecEqUpperPieces 0 str.data⟩

/-! ### Shallow model of the ts-morph program objects used by `ast-utils.ts` -/

/-- An object-literal expression node, identified by its text. -/
structure ObjectLiteralExpression where
  text : String
deriving DecidableEq

/-- A variable declaration: `typeText` models `v.getType().getText(v)` (the
textual rendering of the resolved type), `objectLiteral` models
`v.getChildren().find(Node.isObjectLiteralExpression)` — the first
object-literal child, if any. -/
structure VariableDeclaration where
  typeText : String
  objectLiteral : Option ObjectLiteralExpression
deriving DecidableEq

/-- An import declaration of a source file. -/
structure ImportDeclaration where
  moduleSpecifier : String
  defaultImport : Option String
  namespaceImport : Option String
  namedImports : List String
deriving DecidableEq

/-- A ts-morph source file, restricted to the parts `ast-utils.ts` touches:
its absolute path, its import declarations (in statement order), its variable
declarations and its full text. -/
structure SrcFile where
  filePath : String
  imports : List ImportDeclaration
  varDecls : List VariableDeclaration
  text : String
deriving DecidableEq

/-- A ts-morph project: the loaded source files, in iteration order. -/
structure Project where
  sourceFiles : List SrcFile
deriving DecidableEq

/-- JS truthiness of an optional string: `undefined` and `""` are falsy. -/
def strTruthy : Option String → Bool
  | none => false
  | some s => !(s == "")

/-! ### `addImportsToFile` -/

/-- The `moduleSpecifier` option of `addImportsToFile`:
`string | SourceFile`. -/
inductive ModuleSpecifierArg where
  | str (s : String)
  | file (sf : SrcFile)
deriving DecidableEq

/-- The options record of `addImportsToFile`. -/
structure AddImportsOptions where
  moduleSpecifier : ModuleSpecifierArg
  namedImports : Option (List String)
  namespaceImport : Option String
  order : Option Nat
deriving DecidableEq

/-- The lookup predicate of `addImportsToFile`:
`declaration.getModuleSpecifier().getLiteralValue() === options.moduleSpecifier`.
When the option is a `SourceFile` object, JS strict equality between a string
and an object is always `false`. -/
def specMatches (d : ImportDeclaration) : ModuleSpecifierArg → Bool
  | .str s => d.moduleSpecifier == s
  | .file _ => false

/-- `getModuleSpecifierString` from `ast-utils.ts`. -/
def getModuleSpecifierString (ms : ModuleSpecifierArg) (sourceFile : SrcFile) : String :=
  match ms with
  | .str s => s
  | .file f => getRelativeImportPath f.filePath sourceFile.filePath

/-- One step of the named-import merge loop.  `existing` is the snapshot
`existingDeclaration.getNamedImports()` taken before the loop: the membership
test is against that snapshot, not against the updated declaration. -/
def mergeStep (existing : List String) (acc : ImportDeclaration) (n : String) :
    ImportDeclaration :=
  if (existing.find? (fun ni => ni == n)).isSome then acc
  else { acc with namedImports := acc.namedImports ++ [n] }

/-- The `options.namedImports` merge loop of `addImportsToFile`. -/
def mergeNamedImports (d : ImportDeclaration) (names : List String) : ImportDeclaration :=
  names.foldl (mergeStep d.namedImports) d

/-- The whole existing-declaration branch of `addImportsToFile`: maybe set the
namespace import, then merge the named imports. -/
def mergeDecl (d : ImportDeclaration) (options : AddImportsOptions) : ImportDeclaration :=
  let d1 :=
    if strTruthy options.namespaceImport ∧ d.namespaceImport.isNone ∧ d.defaultImport.isNone
    then { d with namespaceImport := options.namespaceImport }
    else d
  match options.namedImports with
  | none => d1
  | some names => mergeNamedImports d1 names

/-- Replace the first element satisfying `p` by its image under `f` (the
in-place mutation of the declaration found by `getImportDeclaration`). -/
def updateFirstMatching (p : ImportDeclaration → Bool)
    (f : ImportDeclaration → ImportDeclaration) :
    List ImportDeclaration → List ImportDeclaration
  | [] => []
  | d :: rest => if p d then f d :: rest else d :: updateFirstMatching p f rest

/-- Insert an element at position `k` (append when `k` exceeds the length). -/
def insertAt (k : Nat) (a : ImportDeclaration) (l : List ImportDeclaration) :
    List ImportDeclaration :=
  l.take k ++ a :: l.drop k

/-- `importDeclaration.setOrder(k)` applied to the declaration that was just
appended: move the last element of the list to index `k`. -/
def setOrderLast (l : List ImportDeclaration) (k : Nat) : List ImportDeclaration :=
  match l.getLast? with
  | none => l
  | some d => insertAt k d l.dropLast

/-- The declaration freshly created by `addImportsToFile` when no existing
declaration matches: `sourceFile.addImportDeclaration({ moduleSpecifier,
…namespaceImport when truthy, …namedImports when supplied })`. -/
def newImportDecl (sourceFile : SrcFile) (options : AddImportsOptions) : ImportDeclaration :=
  { moduleSpecifier := getModuleSpecifierString options.moduleSpecifier sourceFile
    defaultImport := none
    namespaceImport :=
      if strTruthy options.namespaceImport then options.namespaceImport else none
    namedImports := options.namedImports.getD [] }

/-- `addImportsToFile` from `ast-utils.ts`. -/
def addImportsToFile (sourceFile : SrcFile) (options : AddImportsOptions) : SrcFile :=
  match sourceFile.imports.find? (fun d => specMatches d options.moduleSpecifier) with
  | none =>
    let added := sourceFile.imports ++ [newImportDecl sourceFile options]
    { sourceFile with
        imports :=
          match options.order with
          | some k => setOrderLast added k
          | none => added }
  | some _ =>
    { sourceFile with
        imports :=
          updateFirstMatching (fun d => specMatches d options.moduleSpecifier)
            (fun d => mergeDecl d options) sourceFile.imports }

/-- Number of import declarations of `sf` whose module specifier is `s`. -/
def countSpec (sf : SrcFile) (s : String) : Nat :=
  (sf.imports.filter (fun d => d.moduleSpecifier == s)).length

/-! ### `getVendureConfig` -/

/-- `isVendureConfigVariableDeclaration` from `ast-utils.ts`. -/
def isVendureConfigVariableDeclaration (v : VariableDeclaration) : Bool :=
  v.typeText == "VendureConfig"

/-- JS `String.prototype.endsWith`. -/
def strEndsWith (s suffixStr : String) : Bool :=
  List.isSuffixOf suffixStr.data s.data

/-- Does the character list start with `sub`? -/
def listStartsWith : List Char → List Char → Bool
  | _, [] => true
  | [], _ :: _ => false
  | c :: cs, d :: ds => c == d && listStartsWith cs ds

/-- Does the character list contain `sub` as a contiguous substring? -/
def containsSub (l sub : List Char) : Bool :=
  match l with
  | [] => sub.isEmpty
  | _ :: rest => listStartsWith l sub || containsSub rest sub

/-- JS `String.prototype.includes` (substring containment). -/
def strIncludes (s sub : String) : Bool :=
  containsSub s.data sub.data

/-- `getVendureConfigSourceFile` from `ast-utils.ts`: the first loaded file
that (when `checkFileName`) has the conventional file name and contains a
variable declaration of resolved type `VendureConfig`. -/
def getVendureConfigSourceFile (checkFileName : Bool) (sourceFiles : List SrcFile) :
    Option SrcFile :=
  sourceFiles.find? fun sf =>
    (if checkFileName then strEndsWith sf.filePath "vendure-config.ts" else true) &&
      (sf.varDecls.find? isVendureConfigVariableDeclaration).isSome

/-- node `path.join(a, b)` with `a` not ending in a slash (separator
normalization and `..` collapsing are elided, as no claim exercises them). -/
def pathJoin (a b : String) : String :=
  a ++ "/" ++ b

/-- `findAndAddVendureConfigToProject` from `ast-utils.ts`.  `srcDir` is
`project.getDirectory('src')` together with the `fs.readdirSync` listing of
that directory, and `loadFile` is what `project.addSourceFileAtPath` yields
for a path: the parsed file appended to the project's source files. -/
def findAndAddVendureConfigToProject (project : Project)
    (srcDir : Option (String × List String)) (loadFile : String → SrcFile) : Project :=
  match srcDir with
  | none => project
  | some (srcDirPath, srcFiles) =>
    match srcFiles.find? (fun file => strIncludes file "vendure-config.ts") with
    | none => project
    | some filePath =>
      { sourceFiles := project.sourceFiles ++ [loadFile (pathJoin srcDirPath filePath)] }

/-- `getVendureConfig` from `ast-utils.ts`.  The trailing `as
ObjectLiteralExpression` cast of the source can produce `undefined` at
runtime, so the model returns an `Option`. -/
def getVendureConfig (project : Project) (checkFileName : Bool)
    (srcDir : Option (String × List String)) (loadFile : String → SrcFile) :
    Option ObjectLiteralExpression :=
  let vendureConfigFile :=
    match getVendureConfigSourceFile checkFileName project.sourceFiles with
    | some sf => some sf
    | none =>
      getVendureConfigSourceFile checkFileName
        (findAndAddVendureConfigToProject project srcDir loadFile).sourceFiles
  (vendureConfigFile.bind fun sf =>
    sf.varDecls.find? isVendureConfigVariableDeclaration).bind
    fun v => v.objectLiteral

/-! ### `getTsMorphProject` -/

/-- The error taxonomy of the loader: the source throws
`new Error('No tsconfig.json found in current directory')`. -/
inductive LoaderError where
  | configurationNotFound (message : String)
deriving DecidableEq

/-- Caller-supplied overrides of the fixed project options (`...options` wins
on conflict). -/
structure ProjectOptionsOverride where
  tsConfigFilePath : Option String
  skipLibCheck : Option Bool
deriving DecidableEq

/-- The configuration of the constructed ts-morph `Project`. -/
structure ProjectConfig where
  tsConfigFilePath : String
  skipLibCheck : Bool
deriving DecidableEq

/-- `getTsMorphProject` from `ast-utils.ts`: `fsExists` models
`fs.existsSync` and `cwd` models `process.cwd()`.  The tsconfig check happens
before any project construction, so the error branch reads no source file. -/
def getTsMorphProject (fsExists : String → Bool) (cwd : String)
    (options : ProjectOptionsOverride) : Except LoaderError ProjectConfig :=
  let tsConfigPath := pathJoin cwd "tsconfig.json"
  if !(fsExists tsConfigPath) then
    .error (.configurationNotFound "No tsconfig.json found in current directory")
  else
    .ok { tsConfigFilePath := options.tsConfigFilePath.getD tsConfigPath
          skipLibCheck := options.skipLibCheck.getD true }

/-! ### `createFile` -/

/-- The fixed virtual directory prefix joined with the template path:
`path.join('/.vendure-cli-temp/', templatePath)`. -/
def tempDirJoin (templatePath : String) : String :=
  "/.vendure-cli-temp/" ++ templatePath

/-- `project.createSourceFile(filePath, text, { overwrite: true })`: replace
the file at `filePath` if one exists, append it otherwise; returns the
updated project and the created file. -/
def createSourceFile (project : Project) (filePath text : String) : Project × SrcFile :=
  let sf : SrcFile := { filePath := filePath, imports := [], varDecls := [], text := text }
  if (project.sourceFiles.find? (fun f => f.filePath == filePath)).isSome then
    ({ sourceFiles := project.sourceFiles.map (fun f => if f.filePath == filePath then sf else f) },
      sf)
  else
    ({ sourceFiles := project.sourceFiles ++ [sf] }, sf)

/-- `createFile` from `ast-utils.ts`: `fsRead` models `fs.readFileSync`
(throwing, i.e. `none`, when the template does not exist — that read sits
before the `try`).  `createSourceFile` with `overwrite: true` does not throw,
so the `catch`/`process.exit(1)` path is unreachable in the model. -/
def createFile (fsRead : String → Option String) (project : Project)
    (templatePath : String) : Except String (Project × SrcFile) :=
  match fsRead templatePath with
  | none => .error "ENOENT"
  | some template => .ok (createSourceFile project (tempDirJoin templatePath) template)

/-- The text of the project's file at `filePath`, if any. -/
def getFileText (project : Project) (filePath : String) : Option String :=
  (project.sourceFiles.find? (fun f => f.filePath == filePath)).map (fun f => f.text)

/-! ### `LocaleDatePipe` -/

/-- The option records passed to `Intl.DateTimeFormat` (only the fields the
pipe sets). -/
structure DateTimeFormatOptions where
  year : Option String
  month : Option String
  day : Option String
  hour : Option String
  minute : Option String
  second : Option String
  hour12 : Option Bool
deriving DecidableEq

/-- An option record with no field set. -/
def emptyDTF : DateTimeFormatOptions :=
  { year := none, month := none, day := none, hour := none, minute := none,
    second := none, hour12 := none }

/-- `LocaleDatePipe.getOptionsForFormat`. -/
def getOptionsForFormat (dateFormat : String) : Option DateTimeFormatOptions :=
  if dateFormat == "medium" then
    some { emptyDTF with month := some "short", year := some "numeric", day := some "numeric",
                         hour := some "numeric", minute := some "numeric",
                         second := some "numeric", hour12 := some true }
  else if dateFormat == "mediumTime" then
    some { emptyDTF with hour := some "numeric", minute := some "numeric",
                         second := some "numeric", hour12 := some true }
  else if dateFormat == "longDate" then
    some { emptyDTF with year := some "numeric", month := some "long", day := some "numeric" }
  else if dateFormat == "short" then
    some { emptyDTF with day := some "numeric", month := some "numeric",
                         year := some "2-digit", hour := some "numeric",
                         minute := some "numeric", hour12 := some true }
  else
    none

/-- A JS value as far as `transform` inspects it: a `Date` instance (its
timestamp), a string, `undefined`, or anything else (numbers, objects…). -/
inductive JsValue where
  | date (ms : Int)
  | str (s : String)
  | undef
  | other
deriving DecidableEq

/-- `typeof v === 'string'`. -/
def isStrVal : JsValue → Bool
  | .str _ => true
  | _ => false

/-- `value instanceof Date || typeof value === 'string'`. -/
def isDateOrStrVal : JsValue → Bool
  | .date _ => true
  | .str _ => true
  | _ => false

/-- The `activeLocale` computed by `transform` (only consulted when the
enclosing guard holds, in which case the fallback branch carries a stored
locale). -/
def activeLocaleOf (stateLocale : Option String) (localeArg : JsValue) : String :=
  match localeArg with
  | .str s => s
  | _ => stateLocale.getD ""

/-- The format name `transform` passes on: the `format` argument when it is a
string, `'medium'` otherwise. -/
def formatNameOf (fmtArg : JsValue) : String :=
  match fmtArg with
  | .str f => f
  | _ => "medium"

/-- `LocaleDatePipe.transform`.  `intlFormat` models the external
`new Intl.DateTimeFormat(locale, options).format(date)` collaborator,
`parseDate` models `new Date(string)` (which always yields a — possibly
invalid, but truthy — `Date` object), and `stateLocale` is the pipe's
subscription-written `this.locale` field (`none` before any emission). -/
def transform (intlFormat : String → Option DateTimeFormatOptions → Int → String)
    (parseDate : String → Int) (stateLocale : Option String)
    (value fmtArg localeArg : JsValue) : Option String :=
  if strTruthy stateLocale || isStrVal localeArg then
    let dateObj : Option Int :=
      match value with
      | .date ms => some ms
      | .str s => some (parseDate s)
      | _ => none
    match dateObj with
    | some ms =>
      some (intlFormat (activeLocaleOf stateLocale localeArg)
        (getOptionsForFormat (formatNameOf fmtArg)) ms)
    | none => none
  else
    none

/-! ### Concrete example data for closed evaluations -/

/-- A source file with no imports, used as the target of `addImportsToFile`. -/
def exampleFileA : SrcFile :=
  { filePath := "/src/a.ts", imports := [], varDecls := [], text := "" }

/-- A second in-memory source file, used as a `SourceFile` module
specifier. -/
def exampleFileB : SrcFile :=
  { filePath := "/src/b.ts", imports := [], varDecls := [], text := "" }

/-- An options record whose `moduleSpecifier` is the in-memory file
`exampleFileB`. -/
def exampleFileOpts : AddImportsOptions :=
  { moduleSpecifier := .file exampleFileB, namedImports := some ["A"],
    namespaceImport := none, order := none }

/-- A variable declaration of resolved type `VendureConfig` with an
object-literal initializer. -/
def exampleConfigVar : VariableDeclaration :=
  { typeText := "VendureConfig", objectLiteral := some ⟨"config-object"⟩ }

/-- A conventionally named config file containing `exampleConfigVar`. -/
def exampleConfigFile : SrcFile :=
  { filePath := "/proj/src/vendure-config.ts", imports := [],
    varDecls := [exampleConfigVar], text := "" }

/-- A project whose only file is `exampleConfigFile`. -/
def exampleConfigProject : Project :=
  { sourceFiles := [exampleConfigFile] }

/-- A loader for `addSourceFileAtPath` that yields an empty file at the given
path. -/
def exampleLoad (p : String) : SrcFile :=
  { filePath := p, imports := [], varDecls := [], text := "" }

/-- A second conventionally named config file, with a different initializer,
placed after `exampleConfigFile` in iteration order. -/
def exampleConfigFile2 : SrcFile :=
  { filePath := "/proj/other/vendure-config.ts", imports := [],
    varDecls := [{ typeText := "VendureConfig", objectLiteral := some ⟨"other-object"⟩ }],
    text := "" }

/-- A project with two matching config files; the first one wins. -/
def exampleTwoConfigProject : Project :=
  { sourceFiles := [exampleConfigFile, exampleConfigFile2] }

/-! ## Helper lemmas -/

theorem uint32_le_iff_toNat_le (a b : UInt32) : a ≤ b ↔ a.toNat ≤ b.toNat := by
  rw [UInt32.le_def, BitVec.le_def]
  rfl

theorem char_isUpper_toNat {c : Char} (h : c.isUpper = true) :
    65 ≤ c.toNat ∧ c.toNat ≤ 90 := by
  unfold Char.isUpper at h
  rw [Bool.and_eq_true] at h
  obtain ⟨h1, h2⟩ := h
  rw [decide_eq_true_eq] at h1 h2
  constructor
  · have := (uint32_le_iff_toNat_le 65 c.val).mp h1
    simpa using this
  · have := (uint32_le_iff_toNat_le c.val 90).mp h2
    simpa using this

theorem char_isLower_toNat {c : Char} (h : c.isLower = true) :
    97 ≤ c.toNat ∧ c.toNat ≤ 122 := by
  unfold Char.isLower at h
  rw [Bool.and_eq_true] at h
  obtain ⟨h1, h2⟩ := h
  rw [decide_eq_true_eq] at h1 h2
  constructor
  · have := (uint32_le_iff_toNat_le 97 c.val).mp h1
    simpa using this
  · have := (uint32_le_iff_toNat_le c.val 122).mp h2
    simpa using this

theorem char_toNat_ofNat_valid {n : Nat} (h : n.isValidChar) : (Char.ofNat n).toNat = n := by
  rw [Char.ofNat, dif_pos h]
  rfl

theorem toUpper_ne_imp_toLower_eq (c : Char) (h : c.toUpper ≠ c) : c.toLower = c := by
  unfold Char.toUpper at h
  unfold Char.toLower
  by_cases h97 : 97 ≤ c.toNat ∧ c.toNat ≤ 122
  · have hn : ¬(65 ≤ c.toNat ∧ c.toNat ≤ 90) := by omega
    simp only [ge_iff_le, if_neg hn]
  · simp only [ge_iff_le, if_neg h97] at h
    exact absurd rfl h

theorem isUpper_toUpper_eq (c : Char) (h : c.isUpper = true) : c.toUpper = c := by
  obtain ⟨h1, h2⟩ := char_isUpper_toNat h
  unfold Char.toUpper
  have hn : ¬(97 ≤ c.toNat ∧ c.toNat ≤ 122) := by omega
  simp only [ge_iff_le, if_neg hn]

theorem isLower_toUpper_ne (c : Char) (h : c.isLower = true) : c.toUpper ≠ c := by
  obtain ⟨h1, h2⟩ := char_isLower_toNat h
  unfold Char.toUpper
  have hv : (c.toNat - 32).isValidChar := by
    constructor
    omega
  have hh : 97 ≤ c.toNat ∧ c.toNat ≤ 122 := ⟨h1, h2⟩
  simp only [ge_iff_le, if_pos hh]
  intro heq
  have := congrArg Char.toNat heq
  rw [char_toNat_ofNat_valid hv] at this
  omega

theorem isLower_toLower_eq (c : Char) (h : c.isLower = true) : c.toLower = c := by
  obtain ⟨h1, h2⟩ := char_isLower_toNat h
  unfold Char.toLower
  have hn : ¬(65 ≤ c.toNat ∧ c.toNat ≤ 90) := by omega
  simp only [ge_iff_le, if_neg hn]

theorem kebabizePieces_eq_specEq (idx : Nat) (l : List Char) :
    kebabizePieces idx l = kebabizeSpecEqUpperPieces idx l := by
  induction l generalizing idx with
  | nil => rfl
  | cons c rest ih =>
    simp only [kebabizePieces, kebabizeSpecEqUpperPieces, ih]
    by_cases h : c.toUpper = c
    · simp [h]
    · simp [h, toUpper_ne_imp_toLower_eq c h]

theorem kebabizePieces_eq_specUpper (idx : Nat) (l : List Char)
    (halpha : ∀ c ∈ l, c.isAlpha = true) :
    kebabizePieces idx l = kebabizeSpecUpperPieces idx l := by
  induction l generalizing idx with
  | nil => rfl
  | cons c rest ih =>
    have hc : c.isAlpha = true := halpha c (by simp)
    have hrest : ∀ c ∈ rest, c.isAlpha = true := fun x hx => halpha x (by simp [hx])
    simp only [kebabizePieces, kebabizeSpecUpperPieces, ih _ hrest]
    unfold Char.isAlpha at hc
    rw [Bool.or_eq_true] at hc
    rcases hc with hu | hl
    · simp [isUpper_toUpper_eq c hu, hu]
    · have hne := isLower_toUpper_ne c hl
      simp [hne, isLower_toUpper_ne, isLower_toLower_eq c hl,
        Bool.eq_false_iff.mpr (fun hu => isLower_toUpper_ne c hl (isUpper_toUpper_eq c hu))]

/-! ## Claim theorems -/

/-- C9: `kebabize` classifies a character as uppercase by testing whether the
character equals its own uppercase form, so a `-` is inserted immediately
before a non-initial character exactly when that character is unchanged by
uppercasing (which holds for digits, punctuation and whitespace as well as
uppercase letters); in particular `kebabize "foo1" = "foo-1"` and
`kebabize "a-b" = "a--b"`. -/
theorem kebabize_uppercase_test_characterization :
    (∀ s : String, kebabize s = kebabizeSpecEqUpper s) ∧
    kebabize "foo1" = "foo-1" ∧ kebabize "a-b" = "a--b" :=
  ⟨fun s => congrArg String.mk (kebabizePieces_eq_specEq 0 s.data), by decide, by decide⟩

/-- C3 (counterexample): the claim's characterization of `kebabize` —
lowercase everything and insert `-` only before non-initial *uppercase*
characters — disagrees with the code on `"foo1"`: the code also inserts a
`-` before the digit `1`. -/
theorem kebabize_claim_counterexample :
    kebabize "foo1" = "foo-1" ∧ kebabizeSpecUpper "foo1" = "foo1" ∧
    kebabize "foo1" ≠ kebabizeSpecUpper "foo1" := by
  refine ⟨by decide, by decide, by decide⟩

/-- C3 (amended): on strings consisting of ASCII letters only, `kebabize`
equals the claim's formula (lowercase every character, inserting a `-`
immediately before every non-initial uppercase character), and the four
quoted examples hold. -/
theorem kebabize_letters_spec :
    (∀ s : String, (∀ c ∈ s.data, c.isAlpha = true) → kebabize s = kebabizeSpecUpper s) ∧
    kebabize "fooBar" = "foo-bar" ∧ kebabize "FooBar" = "foo-bar" ∧
    kebabize "" = "" ∧ kebabize "abc" = "abc" :=
  ⟨fun s h => congrArg String.mk (kebabizePieces_eq_specUpper 0 s.data h),
    by decide, by decide, by decide, by decide⟩

/-- C3 (witness): the amended equation applied to the all-letter string
`"FooBar"`. -/
theorem kebabize_letters_spec_witness :
    (∀ c ∈ "FooBar".data, c.isAlpha = true) ∧
    kebabize "FooBar" = kebabizeSpecUpper "FooBar" :=
  ⟨by decide, kebabize_letters_spec.1 "FooBar" (by decide)⟩

/-- C7: when the working directory has no `tsconfig.json`, `getTsMorphProject`
fails immediately with the configuration-not-found error, whatever overrides
the caller supplies; no project configuration is constructed. -/
theorem getTsMorphProject_missing_tsconfig (fsExists : String → Bool) (cwd : String)
    (options : ProjectOptionsOverride)
    (h : fsExists (pathJoin cwd "tsconfig.json") = false) :
    getTsMorphProject fsExists cwd options =
      Except.error
        (LoaderError.configurationNotFound "No tsconfig.json found in current directory") := by
  simp [getTsMorphProject, h]

/-- C7 (witness): the loader error on a filesystem with no files at all. -/
theorem getTsMorphProject_missing_tsconfig_witness :
    (fun _ => false : String → Bool) (pathJoin "/proj" "tsconfig.json") = false ∧
    getTsMorphProject (fun _ => false) "/proj" ⟨none, none⟩ =
      Except.error
        (LoaderError.configurationNotFound "No tsconfig.json found in current directory") :=
  ⟨rfl, getTsMorphProject_missing_tsconfig (fun _ => false) "/proj" ⟨none, none⟩ rfl⟩

/-- C10: `transform` returns `undefined` (without evaluating the formatter)
whenever the value is neither a `Date` nor a string, and likewise whenever no
subscription-derived locale has been stored and the locale argument is not a
string. -/
theorem transform_non_date_or_str_none
    (intlFormat : String → Option DateTimeFormatOptions → Int → String)
    (parseDate : String → Int) (stateLocale : Option String)
    (value fmtArg localeArg : JsValue) :
    (isDateOrStrVal value = false →
      transform intlFormat parseDate stateLocale value fmtArg localeArg = none) ∧
    (stateLocale = none → isStrVal localeArg = false →
      transform intlFormat parseDate stateLocale value fmtArg localeArg = none) := by
  constructor
  · intro h
    cases value with
    | date ms => simp [isDateOrStrVal] at h
    | str s => simp [isDateOrStrVal] at h
    | undef => simp [transform]
    | other => simp [transform]
  · intro h1 h2
    simp [transform, h1, h2, strTruthy]

/-- C10 (witness): both branches at concrete inputs. -/
theorem transform_non_date_or_str_none_witness :
    transform (fun _ _ _ => "formatted") (fun _ => 0) (some "en")
      JsValue.other (JsValue.str "medium") JsValue.undef = none ∧
    transform (fun _ _ _ => "formatted") (fun _ => 0) none
      (JsValue.date 0) (JsValue.str "medium") JsValue.undef = none :=
  ⟨(transform_non_date_or_str_none (fun _ _ _ => "formatted") (fun _ => 0) (some "en")
      JsValue.other (JsValue.str "medium") JsValue.undef).1 (by decide),
   (transform_non_date_or_str_none (fun _ _ _ => "formatted") (fun _ => 0) none
      (JsValue.date 0) (JsValue.str "medium") JsValue.undef).2 rfl (by decide)⟩

/-- C4: `transform` yields `undefined` when neither a stored UI locale nor a
string locale override is available; when one is available and the value is a
`Date` (or a string, parsed as a date), it yields the locale-formatted string
for the options of the named format, where `medium`, `mediumTime`, `longDate`
and `short` map to the fixed option sets below and any other format name
yields no option record. -/
theorem localeDatePipe_transform_spec
    (intlFormat : String → Option DateTimeFormatOptions → Int → String)
    (parseDate : String → Int) (stateLocale : Option String) (fmtArg localeArg : JsValue) :
    (∀ value, (strTruthy stateLocale || isStrVal localeArg) = false →
      transform intlFormat parseDate stateLocale value fmtArg localeArg = none) ∧
    (∀ ms : Int, (strTruthy stateLocale || isStrVal localeArg) = true →
      transform intlFormat parseDate stateLocale (JsValue.date ms) fmtArg localeArg =
        some (intlFormat (activeLocaleOf stateLocale localeArg)
          (getOptionsForFormat (formatNameOf fmtArg)) ms)) ∧
    (∀ s : String, (strTruthy stateLocale || isStrVal localeArg) = true →
      transform intlFormat parseDate stateLocale (JsValue.str s) fmtArg localeArg =
        some (intlFormat (activeLocaleOf stateLocale localeArg)
          (getOptionsForFormat (formatNameOf fmtArg)) (parseDate s))) ∧
    getOptionsForFormat "medium" =
      some { year := some "numeric", month := some "short", day := some "numeric",
             hour := some "numeric", minute := some "numeric", second := some "numeric",
             hour12 := some true } ∧
    getOptionsForFormat "mediumTime" =
      some { year := none, month := none, day := none,
             hour := some "numeric", minute := some "numeric", second := some "numeric",
             hour12 := some true } ∧
    getOptionsForFormat "longDate" =
      some { year := some "numeric", month := some "long", day := some "numeric",
             hour := none, minute := none, second := none, hour12 := none } ∧
    getOptionsForFormat "short" =
      some { year := some "2-digit", month := some "numeric", day := some "numeric",
             hour := some "numeric", minute := some "numeric", second := none,
             hour12 := some true } ∧
    (∀ f : String, f ≠ "medium" → f ≠ "mediumTime" → f ≠ "longDate" → f ≠ "short" →
      getOptionsForFormat f = none) := by
  refine ⟨?_, ?_, ?_, by decide, by decide, by decide, by decide, ?_⟩
  · intro value h
    simp [transform, h]
  · intro ms h
    simp [transform, h]
  · intro s h
    simp [transform, h]
  · intro f h1 h2 h3 h4
    simp [getOptionsForFormat, h1, h2, h3, h4]

/-- C4 (witness): concrete evaluations of the three behavioural branches and
the unrecognized-format case. -/
theorem localeDatePipe_transform_spec_witness :
    transform (fun _ _ _ => "formatted") (fun _ => 7) none
      (JsValue.date 3) JsValue.undef JsValue.undef = none ∧
    transform (fun _ _ _ => "formatted") (fun _ => 7) (some "en-US")
      (JsValue.date 3) (JsValue.str "medium") JsValue.undef = some "formatted" ∧
    transform (fun _ _ _ => "formatted") (fun _ => 7) (some "en-US")
      (JsValue.str "2024-01-01") (JsValue.str "longDate") JsValue.undef = some "formatted" ∧
    getOptionsForFormat "isoDateTime" = none :=
  ⟨(localeDatePipe_transform_spec (fun _ _ _ => "formatted") (fun _ => 7) none
      JsValue.undef JsValue.undef).1 (JsValue.date 3) (by decide),
   (localeDatePipe_transform_spec (fun _ _ _ => "formatted") (fun _ => 7) (some "en-US")
      (JsValue.str "medium") JsValue.undef).2.1 3 (by decide),
   (localeDatePipe_transform_spec (fun _ _ _ => "formatted") (fun _ => 7) (some "en-US")
      (JsValue.str "longDate") JsValue.undef).2.2.1 "2024-01-01" (by decide),
   (localeDatePipe_transform_spec (fun _ _ _ => "formatted") (fun _ => 7) (some "en-US")
      (JsValue.str "longDate") JsValue.undef).2.2.2.2.2.2.2 "isoDateTime"
      (by decide) (by decide) (by decide) (by decide)⟩

theorem find?_map_replace (l : List SrcFile) (fp : String) (sf : SrcFile)
    (hsf : (sf.filePath == fp) = true)
    (h : (l.find? (fun f => f.filePath == fp)).isSome = true) :
    (l.map (fun f => if f.filePath == fp then sf else f)).find?
      (fun f => f.filePath == fp) = some sf := by
  induction l with
  | nil => simp at h
  | cons f rest ih =>
    rw [List.map_cons]
    by_cases hf : (f.filePath == fp) = true
    · rw [if_pos hf]
      exact @List.find?_cons_of_pos _ (fun g => g.filePath == fp) sf _ hsf
    · rw [if_neg hf, @List.find?_cons_of_neg _ (fun g => g.filePath == fp) f _ hf]
      apply ih
      rwa [@List.find?_cons_of_neg _ (fun g => g.filePath == fp) f rest hf] at h

theorem createSourceFile_snd (project : Project) (fp t : String) :
    (createSourceFile project fp t).2 =
      { filePath := fp, imports := [], varDecls := [], text := t } := by
  unfold createSourceFile
  by_cases h : ((project.sourceFiles.find? (fun f => f.filePath == fp)).isSome = true) <;>
    simp [h]

theorem getFileText_createSourceFile (project : Project) (fp t : String) :
    getFileText (createSourceFile project fp t).1 fp = some t := by
  unfold createSourceFile getFileText
  by_cases h : ((project.sourceFiles.find? (fun f => f.filePath == fp)).isSome = true)
  · rw [if_pos h]
    rw [find?_map_replace _ _ _ (by simp) h]
    rfl
  · rw [if_neg h]
    show Option.map _ (List.find? _ (_ ++ [_])) = _
    rw [List.find?_append]
    rw [Option.not_isSome_iff_eq_none.mp h]
    simp

theorem length_createSourceFile_of_isSome (project : Project) (fp t : String)
    (h : (project.sourceFiles.find? (fun f => f.filePath == fp)).isSome = true) :
    (createSourceFile project fp t).1.sourceFiles.length = project.sourceFiles.length := by
  unfold createSourceFile
  simp [h]

/-- C8: with a readable template of content `C`, `createFile` returns an
in-memory file at the fixed temporary prefix joined with the template path
whose text is exactly `C`, and any second call with content `C2` at the same
path overwrites that file entirely (same path, new text, no extra file). -/
theorem createFile_creates_and_overwrites (fsRead : String → Option String)
    (project : Project) (templatePath content : String)
    (h : fsRead templatePath = some content) :
    ∃ project2 sf, createFile fsRead project templatePath = Except.ok (project2, sf) ∧
      sf.filePath = tempDirJoin templatePath ∧ sf.text = content ∧
      getFileText project2 (tempDirJoin templatePath) = some content ∧
      ∀ fsRead2 content2, fsRead2 templatePath = some content2 →
        ∃ project3 sf2, createFile fsRead2 project2 templatePath = Except.ok (project3, sf2) ∧
          sf2.filePath = tempDirJoin templatePath ∧ sf2.text = content2 ∧
          getFileText project3 (tempDirJoin templatePath) = some content2 ∧
          project3.sourceFiles.length = project2.sourceFiles.length := by
  refine ⟨(createSourceFile project (tempDirJoin templatePath) content).1,
          (createSourceFile project (tempDirJoin templatePath) content).2, ?_, ?_, ?_, ?_, ?_⟩
  · simp [createFile, h]
  · rw [createSourceFile_snd]
  · rw [createSourceFile_snd]
  · exact getFileText_createSourceFile project (tempDirJoin templatePath) content
  · intro fsRead2 content2 h2
    have hsome :
        (((createSourceFile project (tempDirJoin templatePath) content).1.sourceFiles.find?
          (fun f => f.filePath == tempDirJoin templatePath)).isSome = true) := by
      have := getFileText_createSourceFile project (tempDirJoin templatePath) content
      unfold getFileText at this
      rcases Option.map_eq_some'.mp this with ⟨f, hf, _⟩
      simp [hf]
    refine ⟨(createSourceFile (createSourceFile project (tempDirJoin templatePath) content).1
              (tempDirJoin templatePath) content2).1,
            (createSourceFile (createSourceFile project (tempDirJoin templatePath) content).1
              (tempDirJoin templatePath) content2).2, ?_, ?_, ?_, ?_, ?_⟩
    · simp [createFile, h2]
    · rw [createSourceFile_snd]
    · rw [createSourceFile_snd]
    · exact getFileText_createSourceFile _ (tempDirJoin templatePath) content2
    · exact length_createSourceFile_of_isSome _ (tempDirJoin templatePath) content2 hsome

/-- C8 (witness): the scenario from the spec — a template
`templates/plugin.ts.template` containing `export class Foo {}`, staged into
an empty project, then overwritten by a second call. -/
theorem createFile_creates_and_overwrites_witness :
    (fun p => if p = "templates/plugin.ts.template" then some "export class Foo \x7b\x7d"
              else none) "templates/plugin.ts.template" = some "export class Foo \x7b\x7d" ∧
    ∃ project2 sf,
      createFile
        (fun p => if p = "templates/plugin.ts.template" then some "export class Foo \x7b\x7d"
                  else none)
        ⟨[]⟩ "templates/plugin.ts.template" = Except.ok (project2, sf) ∧
      sf.filePath = tempDirJoin "templates/plugin.ts.template" ∧
      sf.text = "export class Foo \x7b\x7d" ∧
      getFileText project2 (tempDirJoin "templates/plugin.ts.template") =
        some "export class Foo \x7b\x7d" ∧
      ∀ fsRead2 content2, fsRead2 "templates/plugin.ts.template" = some content2 →
        ∃ project3 sf2,
          createFile fsRead2 project2 "templates/plugin.ts.template" =
            Except.ok (project3, sf2) ∧
          sf2.filePath = tempDirJoin "templates/plugin.ts.template" ∧
          sf2.text = content2 ∧
          getFileText project3 (tempDirJoin "templates/plugin.ts.template") = some content2 ∧
          project3.sourceFiles.length = project2.sourceFiles.length :=
  ⟨by decide,
    createFile_creates_and_overwrites _ ⟨[]⟩ "templates/plugin.ts.template"
      "export class Foo \x7b\x7d" (by decide)⟩

/-- C5: with the default `checkFileName`, `getVendureConfig` returns
`undefined` when there is no `src` directory and no variable of resolved type
`VendureConfig` exists in any loaded file; and when the first
conventionally-named file with such a variable exists, it returns the
object-literal initializer of that file's first matching declaration (so with
several candidates, the first in file-iteration order wins and exactly one
value is returned). -/
theorem getVendureConfig_spec (project : Project)
    (srcDir : Option (String × List String)) (loadFile : String → SrcFile) :
    (srcDir = none →
      (∀ sf ∈ project.sourceFiles, ∀ v ∈ sf.varDecls, v.typeText ≠ "VendureConfig") →
      getVendureConfig project true srcDir loadFile = none) ∧
    (∀ sf v o,
      getVendureConfigSourceFile true project.sourceFiles = some sf →
      sf.varDecls.find? isVendureConfigVariableDeclaration = some v →
      v.objectLiteral = some o →
      getVendureConfig project true srcDir loadFile = some o) := by
  constructor
  · intro h1 h2
    have hnone : getVendureConfigSourceFile true project.sourceFiles = none := by
      unfold getVendureConfigSourceFile
      rw [List.find?_eq_none]
      intro sf hsf
      have hvars : sf.varDecls.find? isVendureConfigVariableDeclaration = none := by
        rw [List.find?_eq_none]
        intro v hv
        unfold isVendureConfigVariableDeclaration
        simp [h2 sf hsf v hv]
      simp [hvars]
    unfold getVendureConfig
    rw [h1]
    unfold findAndAddVendureConfigToProject
    simp [hnone]
  · intro sf v o hsf hv ho
    unfold getVendureConfig
    rw [hsf]
    simp [hv, ho]

/-- C5 (witness): the empty project with no `src` directory yields nothing;
a project with two matching conventionally-named files yields the
first file's initializer. -/
theorem getVendureConfig_spec_witness :
    getVendureConfig ⟨[]⟩ true none exampleLoad = none ∧
    getVendureConfig exampleTwoConfigProject true none exampleLoad = some ⟨"config-object"⟩ :=
  ⟨(getVendureConfig_spec ⟨[]⟩ none exampleLoad).1 rfl (by decide),
   (getVendureConfig_spec exampleTwoConfigProject none exampleLoad).2
     exampleConfigFile exampleConfigVar ⟨"config-object"⟩ (by decide) (by decide) (by decide)⟩

theorem foldl_mergeStep (existing names : List String) (acc : ImportDeclaration) :
    names.foldl (mergeStep existing) acc =
      { acc with namedImports := acc.namedImports ++
          names.filter (fun n => (existing.find? (fun ni => ni == n)).isNone) } := by
  induction names generalizing acc with
  | nil => simp
  | cons n rest ih =>
    rw [List.foldl_cons, ih]
    unfold mergeStep
    cases hfind : existing.find? (fun ni => ni == n) with
    | none => simp [hfind]
    | some x => simp [hfind]

theorem mergeNamedImports_eq (d : ImportDeclaration) (names : List String) :
    mergeNamedImports d names =
      { d with namedImports := d.namedImports ++
          names.filter (fun n => (d.namedImports.find? (fun ni => ni == n)).isNone) } :=
  foldl_mergeStep d.namedImports names d

theorem mergeDecl_eq (d : ImportDeclaration) (opts : AddImportsOptions) :
    mergeDecl d opts =
      { moduleSpecifier := d.moduleSpecifier
        defaultImport := d.defaultImport
        namespaceImport :=
          if strTruthy opts.namespaceImport = true ∧ d.namespaceImport.isNone = true ∧
              d.defaultImport.isNone = true
          then opts.namespaceImport else d.namespaceImport
        namedImports :=
          match opts.namedImports with
          | none => d.namedImports
          | some names =>
            d.namedImports ++
              names.filter (fun n => (d.namedImports.find? (fun ni => ni == n)).isNone) } := by
  unfold mergeDecl
  cases opts.namedImports with
  | none =>
    by_cases hcond : (strTruthy opts.namespaceImport = true ∧ d.namespaceImport.isNone = true ∧
        d.defaultImport.isNone = true)
    · simp only [if_pos hcond]
    · simp only [if_neg hcond]
  | some names =>
    by_cases hcond : (strTruthy opts.namespaceImport = true ∧ d.namespaceImport.isNone = true ∧
        d.defaultImport.isNone = true)
    · simp only [if_pos hcond, mergeNamedImports_eq]
    · simp only [if_neg hcond, mergeNamedImports_eq]

theorem mergeDecl_moduleSpecifier (d : ImportDeclaration) (opts : AddImportsOptions) :
    (mergeDecl d opts).moduleSpecifier = d.moduleSpecifier := by
  rw [mergeDecl_eq]

theorem mergeDecl_defaultImport (d : ImportDeclaration) (opts : AddImportsOptions) :
    (mergeDecl d opts).defaultImport = d.defaultImport := by
  rw [mergeDecl_eq]

theorem mergeDecl_namespaceImport_of_defaultSome (d : ImportDeclaration)
    (opts : AddImportsOptions) (h : d.defaultImport.isSome = true) :
    (mergeDecl d opts).namespaceImport = d.namespaceImport := by
  rw [mergeDecl_eq]
  have hcond : ¬(strTruthy opts.namespaceImport = true ∧ d.namespaceImport.isNone = true ∧
      d.defaultImport.isNone = true) := by
    rintro ⟨-, -, h3⟩
    rw [Option.isNone_iff_eq_none] at h3
    rw [h3] at h
    simp at h
  simp only [if_neg hcond]

theorem mergeDecl_namespaceImport_cases (d : ImportDeclaration) (opts : AddImportsOptions) :
    (mergeDecl d opts).namespaceImport = d.namespaceImport ∨
    (strTruthy opts.namespaceImport = true ∧ d.namespaceImport = none ∧
      d.defaultImport = none ∧ (mergeDecl d opts).namespaceImport = opts.namespaceImport) := by
  rw [mergeDecl_eq]
  by_cases hcond : (strTruthy opts.namespaceImport = true ∧ d.namespaceImport.isNone = true ∧
      d.defaultImport.isNone = true)
  · right
    obtain ⟨h1, h2, h3⟩ := hcond
    rw [Option.isNone_iff_eq_none] at h2 h3
    have hc : strTruthy opts.namespaceImport = true ∧ d.namespaceImport.isNone = true ∧
        d.defaultImport.isNone = true := ⟨h1, by simp [h2], by simp [h3]⟩
    exact ⟨h1, h2, h3, by rw [if_pos hc]⟩
  · left
    simp only [if_neg hcond]

theorem find?_updateFirstMatching (p : ImportDeclaration → Bool)
    (f : ImportDeclaration → ImportDeclaration) (l : List ImportDeclaration)
    (d : ImportDeclaration) (hfd : p (f d) = true)
    (h : l.find? p = some d) :
    (updateFirstMatching p f l).find? p = some (f d) := by
  induction l with
  | nil => simp at h
  | cons e rest ih =>
    unfold updateFirstMatching
    by_cases he : p e = true
    · rw [if_pos he]
      rw [List.find?_cons_of_pos _ he] at h
      cases h
      exact List.find?_cons_of_pos _ hfd
    · rw [if_neg he, List.find?_cons_of_neg _ he]
      rw [List.find?_cons_of_neg _ he] at h
      exact ih h

/-- C6: when the declaration that `addImportsToFile` finds for module `M`
already has a default import, the call leaves both the default import and the
namespace import of that declaration unchanged (the namespace-import request
is skipped); and in general the namespace import of the found declaration is
changed only when it had neither a namespace import nor a default import, in
which case it becomes the requested one. -/
theorem addImportsToFile_namespace_skip (sf : SrcFile) (M : String)
    (named : Option (List String)) (ns : Option String) (ord : Option Nat)
    (d : ImportDeclaration)
    (hfind : sf.imports.find? (fun x => specMatches x (ModuleSpecifierArg.str M)) = some d) :
    (d.defaultImport.isSome = true →
      (addImportsToFile sf ⟨.str M, named, ns, ord⟩).imports.find?
          (fun x => specMatches x (ModuleSpecifierArg.str M)) =
        some (mergeDecl d ⟨.str M, named, ns, ord⟩) ∧
      (mergeDecl d ⟨.str M, named, ns, ord⟩).defaultImport = d.defaultImport ∧
      (mergeDecl d ⟨.str M, named, ns, ord⟩).namespaceImport = d.namespaceImport) ∧
    ((mergeDecl d ⟨.str M, named, ns, ord⟩).namespaceImport ≠ d.namespaceImport →
      d.namespaceImport = none ∧ d.defaultImport = none ∧
      (mergeDecl d ⟨.str M, named, ns, ord⟩).namespaceImport = ns) := by
  have hpd := List.find?_some hfind
  have hpfd : (fun x => specMatches x (ModuleSpecifierArg.str M))
      (mergeDecl d ⟨.str M, named, ns, ord⟩) = true := by
    show specMatches _ _ = true
    unfold specMatches
    rw [mergeDecl_moduleSpecifier]
    exact hpd
  constructor
  · intro hdef
    refine ⟨?_, mergeDecl_defaultImport d _,
      mergeDecl_namespaceImport_of_defaultSome d _ hdef⟩
    unfold addImportsToFile
    rw [hfind]
    exact find?_updateFirstMatching _ _ _ _ hpfd hfind
  · intro hne
    rcases mergeDecl_namespaceImport_cases d ⟨.str M, named, ns, ord⟩ with hsame | hset
    · exact absurd hsame hne
    · exact ⟨hset.2.1, hset.2.2.1, hset.2.2.2⟩

/-- C6 (witness): a file whose only declaration imports a default from
`react`; requesting a namespace import leaves it untouched. -/
theorem addImportsToFile_namespace_skip_witness :
    ([⟨"react", some "React", none, []⟩] :
        List ImportDeclaration).find? (fun x => specMatches x (ModuleSpecifierArg.str "react")) =
      some ⟨"react", some "React", none, []⟩ ∧
    ((addImportsToFile ⟨"/src/a.ts", [⟨"react", some "React", none, []⟩], [], ""⟩
        ⟨.str "react", none, some "ReactNS", none⟩).imports.find?
        (fun x => specMatches x (ModuleSpecifierArg.str "react")) =
      some (mergeDecl ⟨"react", some "React", none, []⟩
        ⟨.str "react", none, some "ReactNS", none⟩) ∧
    (mergeDecl ⟨"react", some "React", none, []⟩
        ⟨.str "react", none, some "ReactNS", none⟩).defaultImport = some "React" ∧
    (mergeDecl ⟨"react", some "React", none, []⟩
        ⟨.str "react", none, some "ReactNS", none⟩).namespaceImport = none) := by
  refine ⟨by decide, ?_⟩
  exact (addImportsToFile_namespace_skip
    ⟨"/src/a.ts", [⟨"react", some "React", none, []⟩], [], ""⟩ "react"
    none (some "ReactNS") none ⟨"react", some "React", none, []⟩ (by decide)).1 (by decide)

theorem specMatches_str (d : ImportDeclaration) (s : String) :
    specMatches d (ModuleSpecifierArg.str s) = (d.moduleSpecifier == s) := rfl

theorem setOrderLast_perm (l : List ImportDeclaration) (k : Nat) :
    (setOrderLast l k).Perm l := by
  unfold setOrderLast
  cases hl : l.getLast? with
  | none => exact List.Perm.refl _
  | some d =>
    have hne : l ≠ [] := by
      intro h
      rw [h] at hl
      simp at hl
    have hd : l.dropLast ++ [d] = l := by
      have hlast := List.getLast?_eq_getLast l hne
      rw [hlast] at hl
      cases hl
      exact List.dropLast_append_getLast hne
    have h1 : (insertAt k d l.dropLast).Perm (d :: l.dropLast) := by
      unfold insertAt
      have hmid := @List.perm_middle _ d (l.dropLast.take k) (l.dropLast.drop k)
      rwa [List.take_append_drop] at hmid
    have h2 : (l.dropLast ++ [d]).Perm (d :: l.dropLast) := by
      have hmid := @List.perm_middle _ d l.dropLast []
      rwa [List.append_nil] at hmid
    have h3 : (insertAt k d l.dropLast).Perm (l.dropLast ++ [d]) := h1.trans h2.symm
    rw [hd] at h3
    exact h3

theorem addImportsToFile_imports_none_perm (sf : SrcFile) (opts : AddImportsOptions)
    (h : sf.imports.find? (fun d => specMatches d opts.moduleSpecifier) = none) :
    ((addImportsToFile sf opts).imports).Perm (sf.imports ++ [newImportDecl sf opts]) := by
  simp only [addImportsToFile, h]
  cases opts.order with
  | none => exact List.Perm.refl _
  | some k => exact setOrderLast_perm _ k

theorem addImportsToFile_imports_some (sf : SrcFile) (opts : AddImportsOptions)
    (d0 : ImportDeclaration)
    (h : sf.imports.find? (fun d => specMatches d opts.moduleSpecifier) = some d0) :
    (addImportsToFile sf opts).imports =
      updateFirstMatching (fun d => specMatches d opts.moduleSpecifier)
        (fun d => mergeDecl d opts) sf.imports := by
  simp only [addImportsToFile, h]

theorem filter_length_updateFirstMatching (p q : ImportDeclaration → Bool)
    (f : ImportDeclaration → ImportDeclaration) (l : List ImportDeclaration)
    (hpq : ∀ d, q (f d) = q d) :
    ((updateFirstMatching p f l).filter q).length = (l.filter q).length := by
  induction l with
  | nil => rfl
  | cons e rest ih =>
    unfold updateFirstMatching
    by_cases he : p e = true
    · rw [if_pos he]
      by_cases hq : q e = true
      · rw [List.filter_cons_of_pos (by rw [hpq]; exact hq),
          List.filter_cons_of_pos hq]
        simp
      · rw [List.filter_cons_of_neg (by rw [hpq]; exact hq),
          List.filter_cons_of_neg hq]
    · rw [if_neg he]
      by_cases hq : q e = true
      · rw [List.filter_cons_of_pos hq, List.filter_cons_of_pos hq]
        simpa using ih
      · rw [List.filter_cons_of_neg hq, List.filter_cons_of_neg hq]
        exact ih

theorem mem_updateFirstMatching (p : ImportDeclaration → Bool)
    (f : ImportDeclaration → ImportDeclaration) (l : List ImportDeclaration)
    (x : ImportDeclaration) (hx : x ∈ updateFirstMatching p f l) :
    x ∈ l ∨ ∃ d, d ∈ l ∧ p d = true ∧ x = f d := by
  induction l with
  | nil => simp [updateFirstMatching] at hx
  | cons e rest ih =>
    unfold updateFirstMatching at hx
    by_cases he : p e = true
    · rw [if_pos he] at hx
      rcases List.mem_cons.mp hx with hx | hx
      · exact Or.inr ⟨e, List.mem_cons_self e rest, he, hx⟩
      · exact Or.inl (List.mem_cons_of_mem e hx)
    · rw [if_neg he] at hx
      rcases List.mem_cons.mp hx with hx | hx
      · exact Or.inl (by rw [hx]; exact List.mem_cons_self e rest)
      · rcases ih hx with h | ⟨d, hd, hpd, hxd⟩
        · exact Or.inl (List.mem_cons_of_mem e h)
        · exact Or.inr ⟨d, List.mem_cons_of_mem e hd, hpd, hxd⟩

theorem countSpec_addImportsToFile (sf : SrcFile) (s : String)
    (named : Option (List String)) (ns : Option String) (ord : Option Nat)
    (h : countSpec sf s ≤ 1) :
    countSpec (addImportsToFile sf ⟨.str s, named, ns, ord⟩) s = 1 := by
  cases hfind : sf.imports.find?
      (fun d => specMatches d (ModuleSpecifierArg.str s)) with
  | none =>
    have hzero : sf.imports.filter (fun d => d.moduleSpecifier == s) = [] := by
      rw [List.filter_eq_nil_iff]
      intro d hd
      have := List.find?_eq_none.mp hfind d hd
      rwa [specMatches_str] at this
    unfold countSpec
    rw [List.Perm.length_eq (List.Perm.filter _
      (addImportsToFile_imports_none_perm sf ⟨.str s, named, ns, ord⟩ hfind))]
    rw [List.filter_append, hzero]
    simp [newImportDecl, getModuleSpecifierString]
  | some d0 =>
    have hmem : d0 ∈ sf.imports := List.mem_of_find?_eq_some hfind
    have hpd0 : (d0.moduleSpecifier == s) = true := by
      have := List.find?_some hfind
      rwa [specMatches_str] at this
    have hge : 1 ≤ countSpec sf s := by
      unfold countSpec
      have : d0 ∈ sf.imports.filter (fun d => d.moduleSpecifier == s) :=
        List.mem_filter.mpr ⟨hmem, hpd0⟩
      exact List.length_pos.mpr (List.ne_nil_of_mem this)
    have heq : countSpec sf s = 1 := Nat.le_antisymm h hge
    unfold countSpec
    rw [addImportsToFile_imports_some sf ⟨.str s, named, ns, ord⟩ d0 hfind]
    rw [filter_length_updateFirstMatching _ _ _ _
      (fun d => by rw [mergeDecl_moduleSpecifier])]
    exact heq

theorem find?_isNone_not_mem (names : List String) (n : String)
    (h : (names.find? (fun ni => ni == n)).isNone = true) : n ∉ names := by
  intro hmem
  rw [Option.isNone_iff_eq_none, List.find?_eq_none] at h
  exact h n hmem (by simp)

theorem mergeDecl_nodup (d : ImportDeclaration) (opts : AddImportsOptions)
    (hd : d.namedImports.Nodup) (hnamed : ∀ l, opts.namedImports = some l → l.Nodup) :
    (mergeDecl d opts).namedImports.Nodup := by
  rw [mergeDecl_eq]
  cases hni : opts.namedImports with
  | none => simpa using hd
  | some names =>
    simp only
    refine List.Nodup.append hd (List.Nodup.filter _ (hnamed names hni)) ?_
    intro x hx hx2
    rcases List.mem_filter.mp hx2 with ⟨-, hfind⟩
    exact find?_isNone_not_mem d.namedImports x hfind hx

theorem nodup_addImportsToFile (sf : SrcFile) (s : String)
    (named : Option (List String)) (ns : Option String) (ord : Option Nat)
    (hnodup : ∀ d ∈ sf.imports, d.moduleSpecifier = s → d.namedImports.Nodup)
    (hnamed : ∀ l, named = some l → l.Nodup) :
    ∀ d ∈ (addImportsToFile sf ⟨.str s, named, ns, ord⟩).imports,
      d.moduleSpecifier = s → d.namedImports.Nodup := by
  intro d hd hds
  cases hfind : sf.imports.find?
      (fun x => specMatches x (ModuleSpecifierArg.str s)) with
  | none =>
    have hmem := (addImportsToFile_imports_none_perm sf
      ⟨.str s, named, ns, ord⟩ hfind).mem_iff.mp hd
    rcases List.mem_append.mp hmem with hold | hnew
    · exact hnodup d hold hds
    · have : d = newImportDecl sf ⟨.str s, named, ns, ord⟩ := by simpa using hnew
      rw [this]
      unfold newImportDecl
      cases hni : named with
      | none => simp
      | some l => simpa using hnamed l hni
  | some d0 =>
    rw [addImportsToFile_imports_some sf ⟨.str s, named, ns, ord⟩ d0 hfind] at hd
    rcases mem_updateFirstMatching _ _ _ _ hd with hold | ⟨e, he, hpe, hde⟩
    · exact hnodup d hold hds
    · have hes : e.moduleSpecifier = s := by
        rw [specMatches_str] at hpe
        exact eq_of_beq hpe
      rw [hde]
      exact mergeDecl_nodup e _ (hnodup e he hes) hnamed

/-- C1 (counterexample): with an in-memory source-file module specifier, the
existing-declaration lookup compares a string literal against the
`SourceFile` object with `===`, which never matches, so two identical calls
append two import declarations with the same resolved specifier `"./../b"` —
not the claimed single declaration. -/
theorem addImportsToFile_sourceFile_specifier_duplicate :
    getModuleSpecifierString exampleFileOpts.moduleSpecifier exampleFileA = "./../b" ∧
    countSpec (addImportsToFile (addImportsToFile exampleFileA exampleFileOpts)
      exampleFileOpts) "./../b" = 2 ∧
    ¬ countSpec (addImportsToFile (addImportsToFile exampleFileA exampleFileOpts)
      exampleFileOpts) "./../b" = 1 := by
  refine ⟨by decide, by decide, by decide⟩

/-- C1 (amended): for a *string* module specifier, on a file with at most one
declaration for that specifier (duplicate-free named imports there) and a
duplicate-free requested named-import list, calling `addImportsToFile` twice
with identical arguments leaves exactly one declaration with that specifier,
and every declaration with that specifier has duplicate-free named imports.
(The in-memory-file specifier case fails: the lookup never matches, so each
call appends a fresh declaration.) -/
theorem addImportsToFile_string_idempotent (sf : SrcFile) (s : String)
    (named : Option (List String)) (ns : Option String) (ord : Option Nat)
    (hcount : countSpec sf s ≤ 1)
    (hnodup : ∀ d ∈ sf.imports, d.moduleSpecifier = s → d.namedImports.Nodup)
    (hnamed : ∀ l, named = some l → l.Nodup) :
    countSpec (addImportsToFile (addImportsToFile sf ⟨.str s, named, ns, ord⟩)
      ⟨.str s, named, ns, ord⟩) s = 1 ∧
    ∀ d ∈ (addImportsToFile (addImportsToFile sf ⟨.str s, named, ns, ord⟩)
      ⟨.str s, named, ns, ord⟩).imports, d.moduleSpecifier = s → d.namedImports.Nodup := by
  have h1 := countSpec_addImportsToFile sf s named ns ord hcount
  have h2 := nodup_addImportsToFile sf s named ns ord hnodup hnamed
  exact ⟨countSpec_addImportsToFile _ s named ns ord (le_of_eq h1),
    nodup_addImportsToFile _ s named ns ord h2 hnamed⟩

/-- C1 (witness): the amended statement evaluated on an import-free file with
specifier `"react"` and named imports `["useState"]`. -/
theorem addImportsToFile_string_idempotent_witness :
    countSpec exampleFileA "react" ≤ 1 ∧
    countSpec (addImportsToFile (addImportsToFile exampleFileA
      ⟨.str "react", some ["useState"], none, none⟩)
      ⟨.str "react", some ["useState"], none, none⟩) "react" = 1 ∧
    ∀ d ∈ (addImportsToFile (addImportsToFile exampleFileA
      ⟨.str "react", some ["useState"], none, none⟩)
      ⟨.str "react", some ["useState"], none, none⟩).imports,
      d.moduleSpecifier = "react" → d.namedImports.Nodup := by
  have h := addImportsToFile_string_idempotent exampleFileA "react"
    (some ["useState"]) none none (by decide) (by decide)
    (by
      intro l hl
      cases hl
      decide)
  exact ⟨by decide, h.1, h.2⟩

theorem collapseSlashes_subset : ∀ (l : List Char), collapseSlashes l ⊆ l := by
  intro l
  induction l using collapseSlashes.induct with
  | case1 => simp [collapseSlashes]
  | case2 c => simp [collapseSlashes]
  | case3 c d rest h ih =>
    obtain ⟨hc, hd⟩ := h
    subst hc hd
    rw [collapseSlashes, if_pos ⟨rfl, rfl⟩]
    intro x hx
    rcases List.mem_cons.mp hx with hx | hx
    · simp [hx]
    · simp [ih hx]
  | case4 c d rest h ih =>
    rw [collapseSlashes, if_neg h]
    intro x hx
    rcases List.mem_cons.mp hx with hx | hx
    · simp [hx]
    · simp [ih hx]

theorem collapseSlashes_slash_cons (m : List Char) :
    ∃ t, collapseSlashes ('/' :: m) = '/' :: t := by
  cases m with
  | nil => exact ⟨[], rfl⟩
  | cons c m2 =>
    by_cases hc : c = '/'
    · subst hc
      exact ⟨collapseSlashes m2, by rw [collapseSlashes, if_pos ⟨rfl, rfl⟩]⟩
    · exact ⟨collapseSlashes (c :: m2), by rw [collapseSlashes, if_neg (by simp [hc])]⟩

theorem collapseSlashes_dot_slash (m : List Char) :
    collapseSlashes ('.' :: '/' :: m) = '.' :: collapseSlashes ('/' :: m) := by
  rw [collapseSlashes, if_neg (by simp)]

theorem collapseSlashes_eq_self : ∀ (l : List Char), NoDoubleSlash l → collapseSlashes l = l := by
  intro l
  induction l using collapseSlashes.induct with
  | case1 => intro _; rfl
  | case2 c => intro _; rfl
  | case3 c d rest h ih =>
    intro hnds
    obtain ⟨hc, hd⟩ := h
    subst hc hd
    exact absurd ⟨rfl, rfl⟩ (List.chain'_cons.mp hnds).1
  | case4 c d rest h ih =>
    intro hnds
    rw [collapseSlashes, if_neg h, ih (List.Chain'.tail hnds)]

theorem noDoubleSlash_of_no_slash (l : List Char) (h : ∀ c ∈ l, c ≠ '/') :
    NoDoubleSlash l := by
  induction l with
  | nil => exact List.chain'_nil
  | cons c rest ih =>
    rw [NoDoubleSlash, List.chain'_cons']
    refine ⟨?_, ih (fun x hx => h x (List.mem_cons_of_mem c hx))⟩
    intro y _ hy
    exact h c (List.mem_cons_self c rest) hy.1

theorem mem_dropTrailWhile (p : Char → Bool) (l : List Char) (c : Char)
    (h : c ∈ dropTrailWhile p l) : c ∈ l := by
  unfold dropTrailWhile at h
  rw [List.mem_reverse] at h
  have := (List.dropWhile_sublist p).subset h
  rwa [List.mem_reverse] at this

theorem dropTrailWhile_isPrefix (p : Char → Bool) (l : List Char) :
    ∃ t, dropTrailWhile p l ++ t = l := by
  unfold dropTrailWhile
  obtain ⟨t, ht⟩ := @List.dropWhile_suffix _ l.reverse p
  refine ⟨t.reverse, ?_⟩
  have := congrArg List.reverse ht
  rw [List.reverse_append, List.reverse_reverse] at this
  exact this

theorem componentName_eq_or (comp : List Char) (b : Bool) :
    componentName comp b = comp ∨ ∃ d, componentName comp b = comp.take d := by
  unfold componentName
  rcases lastDotIdx? comp with - | d
  · exact Or.inl rfl
  · cases d with
    | zero => exact Or.inl rfl
    | succ d2 =>
      by_cases hcond : (comp = ['.', '.'] ∧ b = true)
      · exact Or.inl (by show (if comp = ['.', '.'] ∧ b = true then comp
          else List.take (d2 + 1) comp) = comp; rw [if_pos hcond])
      · exact Or.inr ⟨d2 + 1, by show (if comp = ['.', '.'] ∧ b = true then comp
          else List.take (d2 + 1) comp) = List.take (d2 + 1) comp; rw [if_neg hcond]⟩

theorem mem_componentName (comp : List Char) (b : Bool) (c : Char)
    (h : c ∈ componentName comp b) : c ∈ comp := by
  rcases componentName_eq_or comp b with he | ⟨d, he⟩
  · rwa [he] at h
  · rw [he] at h
    exact List.take_subset _ _ h

theorem dropWhile_head_not (q : Char → Bool) :
    ∀ (l : List Char) (x : Char) (xs : List Char), l.dropWhile q = x :: xs → q x = false := by
  intro l
  induction l with
  | nil => intro x xs h; simp at h
  | cons a rest ih =>
    intro x xs h
    rw [List.dropWhile_cons] at h
    by_cases ha : q a = true
    · rw [if_pos ha] at h
      exact ih x xs h
    · rw [if_neg ha] at h
      cases h
      exact Bool.eq_false_iff.mpr ha

theorem posixParseDirName_nonAbs (c0 : Char) (rest : List Char) (hc0 : ¬ c0 = '/') :
    posixParseDirName (c0 :: rest) =
      ((match (dropTrailWhile (fun c => c = '/') (c0 :: rest)).reverse.dropWhile
          (fun c => c ≠ '/') with
        | [] => ([] : List Char)
        | _ :: revPre => revPre.reverse),
       componentName
         ((dropTrailWhile (fun c => c = '/') (c0 :: rest)).reverse.takeWhile
           (fun c => c ≠ '/')).reverse true) := by
  unfold posixParseDirName
  have h1 : (decide (c0 = '/')) = false := decide_eq_false hc0
  simp only [if_neg hc0, h1, Bool.not_false, Bool.or_true, List.nil_append]

theorem parse_name_no_slash (s : List Char) :
    ∀ c ∈ (posixParseDirName s).2, c ≠ '/' := by
  intro c hc
  cases s with
  | nil => simp [posixParseDirName] at hc
  | cons c0 rest =>
    have hc2 : c ∈ ((dropTrailWhile (fun x => x = '/')
        (if c0 = '/' then rest else c0 :: rest)).reverse.takeWhile
        (fun x => x ≠ '/')).reverse := by
      unfold posixParseDirName at hc
      exact mem_componentName _ _ _ hc
    rw [List.mem_reverse] at hc2
    have := List.mem_takeWhile_imp hc2
    exact of_decide_eq_true this

theorem parse_dir_shape (n : List Char) (h1 : NoDoubleSlash n) (h2 : n.head? ≠ some '/') :
    (posixParseDirName n).1 = [] ∨
    ((posixParseDirName n).1 ≠ [] ∧ NoDoubleSlash (posixParseDirName n).1 ∧
     (∀ x ∈ (posixParseDirName n).1.head?, ¬ x = '/') ∧
     (∀ x ∈ (posixParseDirName n).1.getLast?, ¬ x = '/')) := by
  cases n with
  | nil => left; rfl
  | cons c0 rest =>
    have hc0 : ¬ c0 = '/' := by
      intro h
      exact h2 (by rw [h]; rfl)
    rw [posixParseDirName_nonAbs c0 rest hc0]
    cases hb : (dropTrailWhile (fun c => c = '/') (c0 :: rest)).reverse.dropWhile
        (fun c => c ≠ '/') with
    | nil => left; rfl
    | cons b revPre =>
      by_cases hdp : revPre.reverse = []
      · left
        simpa using hdp
      · right
        have hbslash : b = '/' := by
          have := dropWhile_head_not (fun c => c ≠ '/') _ b revPre hb
          simpa using this
        have hsplit : dropTrailWhile (fun c => c = '/') (c0 :: rest) =
            revPre.reverse ++ '/' ::
              ((dropTrailWhile (fun c => c = '/') (c0 :: rest)).reverse.takeWhile
                (fun c => c ≠ '/')).reverse := by
          have hTD := List.takeWhile_append_dropWhile (fun c => decide (c ≠ '/'))
            (dropTrailWhile (fun c => c = '/') (c0 :: rest)).reverse
          rw [hb, hbslash] at hTD
          have hrev := congrArg List.reverse hTD
          rw [List.reverse_append, List.reverse_reverse, List.reverse_cons,
            List.append_assoc, List.singleton_append] at hrev
          exact hrev.symm
        obtain ⟨t, ht⟩ := dropTrailWhile_isPrefix (fun c => c = '/') (c0 :: rest)
        rw [hsplit] at ht
        have hchain : NoDoubleSlash ((revPre.reverse ++ '/' ::
            ((dropTrailWhile (fun c => c = '/') (c0 :: rest)).reverse.takeWhile
              (fun c => c ≠ '/')).reverse) ++ t) := by
          rw [NoDoubleSlash, ht]
          exact h1
        rw [List.append_assoc] at hchain
        obtain ⟨hchainDir, hchainRest, hjunction⟩ := List.chain'_append.mp hchain
        refine ⟨hdp, hchainDir, ?_, ?_⟩
        · intro x hx
          have hx2 : x ∈ (revPre.reverse).head? := hx
          cases hrev : revPre.reverse with
          | nil => rw [hrev] at hx2; simp at hx2
          | cons hd dtl =>
            rw [hrev] at hx2 ht
            simp only [List.head?_cons, Option.mem_def, Option.some.injEq] at hx2
            have hc0hd : hd = c0 := by
              simp only [List.cons_append] at ht
              exact ((List.cons.injEq _ _ _ _).mp ht).1
            intro hxs
            rw [hx2, hxs] at hc0hd
            exact hc0 hc0hd.symm
        · intro x hx
          have hx2 : x ∈ (revPre.reverse).getLast? := hx
          have := hjunction x hx2 '/' (by simp)
          intro hxs
          exact this ⟨hxs, rfl⟩

theorem mem_normalizeSeps_ne_backslash (l : List Char) (c : Char)
    (h : c ∈ normalizeSeps l) : c ≠ '\\' := by
  unfold normalizeSeps at h
  rcases List.mem_map.mp h with ⟨a, -, ha⟩
  by_cases hab : a = '\\'
  · rw [if_pos hab] at ha
    rw [← ha]
    decide
  · rw [if_neg hab] at ha
    rw [← ha]
    exact hab

theorem parse_name_chars (s : List Char) : ∀ c ∈ (posixParseDirName s).2, c ∈ s := by
  intro c hc
  cases s with
  | nil => simp [posixParseDirName] at hc
  | cons c0 rest =>
    have hc2 : c ∈ ((dropTrailWhile (fun x => x = '/')
        (if c0 = '/' then rest else c0 :: rest)).reverse.takeWhile
        (fun x => x ≠ '/')).reverse := by
      unfold posixParseDirName at hc
      exact mem_componentName _ _ _ hc
    rw [List.mem_reverse] at hc2
    have hc3 := (List.takeWhile_sublist (fun x => decide (x ≠ '/'))).subset hc2
    rw [List.mem_reverse] at hc3
    have hc4 := mem_dropTrailWhile _ _ _ hc3
    by_cases h0 : c0 = '/'
    · rw [if_pos h0] at hc4
      exact List.mem_cons_of_mem c0 hc4
    · rwa [if_neg h0] at hc4

theorem parse_dir_chars (s : List Char) : ∀ c ∈ (posixParseDirName s).1, c = '/' ∨ c ∈ s := by
  intro c hc
  cases s with
  | nil => simp [posixParseDirName] at hc
  | cons c0 rest =>
    have hc2 : c ∈ (match (dropTrailWhile (fun x => x = '/')
        (if c0 = '/' then rest else c0 :: rest)).reverse.dropWhile (fun x => x ≠ '/') with
      | [] => (if c0 = '/' then ['/'] else ([] : List Char))
      | _ :: revPre => (if c0 = '/' then ['/'] else ([] : List Char)) ++ revPre.reverse) := by
      unfold posixParseDirName at hc
      exact hc
    cases hb : (dropTrailWhile (fun x => x = '/')
        (if c0 = '/' then rest else c0 :: rest)).reverse.dropWhile (fun x => x ≠ '/') with
    | nil =>
      rw [hb] at hc2
      have hc3 : c ∈ (if c0 = '/' then ['/'] else ([] : List Char)) := hc2
      by_cases h0 : c0 = '/'
      · rw [if_pos h0] at hc3
        left
        simpa using hc3
      · rw [if_neg h0] at hc3
        simp at hc3
    | cons b revPre =>
      rw [hb] at hc2
      have hc3 : c ∈ (if c0 = '/' then ['/'] else ([] : List Char)) ++ revPre.reverse := hc2
      rcases List.mem_append.mp hc3 with hroot | hpre
      · by_cases h0 : c0 = '/'
        · rw [if_pos h0] at hroot
          left
          simpa using hroot
        · rw [if_neg h0] at hroot
          simp at hroot
      · right
        rw [List.mem_reverse] at hpre
        have hmem : c ∈ b :: revPre := List.mem_cons_of_mem b hpre
        rw [← hb] at hmem
        have hmem2 := (List.dropWhile_sublist (fun x => decide (x ≠ '/'))).subset hmem
        rw [List.mem_reverse] at hmem2
        have hmem3 := mem_dropTrailWhile _ _ _ hmem2
        by_cases h0 : c0 = '/'
        · rw [if_pos h0] at hmem3
          exact List.mem_cons_of_mem c0 hmem3
        · rwa [if_neg h0] at hmem3

theorem convert_starts_dot_slash (fp : String) :
    ∃ t, (convertPathToRelativeImport fp).data = '.' :: '/' :: t := by
  obtain ⟨t, ht⟩ := collapseSlashes_slash_cons
    ((posixParseDirName (normalizeSeps fp.data)).1 ++
      '/' :: (posixParseDirName (normalizeSeps fp.data)).2)
  refine ⟨t, ?_⟩
  show collapseSlashes ('.' :: '/' :: ((posixParseDirName (normalizeSeps fp.data)).1 ++
    '/' :: (posixParseDirName (normalizeSeps fp.data)).2)) = '.' :: '/' :: t
  rw [collapseSlashes_dot_slash, ht]

theorem convert_no_backslash (fp : String) : '\\' ∉ (convertPathToRelativeImport fp).data := by
  intro hmem
  have hmem1 : '\\' ∈ collapseSlashes ('.' :: '/' ::
      ((posixParseDirName (normalizeSeps fp.data)).1 ++
        '/' :: (posixParseDirName (normalizeSeps fp.data)).2)) := hmem
  have hmem2 := collapseSlashes_subset _ hmem1
  rcases List.mem_cons.mp hmem2 with h | hmem3
  · exact absurd h (by decide)
  rcases List.mem_cons.mp hmem3 with h | hmem4
  · exact absurd h (by decide)
  rcases List.mem_append.mp hmem4 with hdir | hrest
  · rcases parse_dir_chars _ '\\' hdir with h | h
    · exact absurd h (by decide)
    · exact mem_normalizeSeps_ne_backslash _ _ h rfl
  · rcases List.mem_cons.mp hrest with h | hname
    · exact absurd h (by decide)
    · exact mem_normalizeSeps_ne_backslash _ _ (parse_name_chars _ '\\' hname) rfl

theorem convert_noDoubleSlash (fp : String)
    (h1 : NoDoubleSlash (normalizeSeps fp.data))
    (h2 : (normalizeSeps fp.data).head? ≠ some '/') :
    NoDoubleSlash (convertPathToRelativeImport fp).data := by
  have hname := parse_name_no_slash (normalizeSeps fp.data)
  have hnamechain : NoDoubleSlash (posixParseDirName (normalizeSeps fp.data)).2 :=
    noDoubleSlash_of_no_slash _ hname
  show NoDoubleSlash (collapseSlashes ('.' :: '/' ::
    ((posixParseDirName (normalizeSeps fp.data)).1 ++
      '/' :: (posixParseDirName (normalizeSeps fp.data)).2)))
  rcases parse_dir_shape (normalizeSeps fp.data) h1 h2 with hdir | ⟨hne, hnds, hhead, hlast⟩
  · rw [hdir, List.nil_append, collapseSlashes_dot_slash]
    rw [show collapseSlashes ('/' :: '/' :: (posixParseDirName (normalizeSeps fp.data)).2) =
      '/' :: collapseSlashes (posixParseDirName (normalizeSeps fp.data)).2 from by
        rw [collapseSlashes, if_pos ⟨rfl, rfl⟩]]
    rw [collapseSlashes_eq_self _ hnamechain]
    rw [NoDoubleSlash, List.chain'_cons']
    refine ⟨by intro y hy; rintro ⟨h, -⟩; exact absurd h (by decide), ?_⟩
    rw [List.chain'_cons']
    refine ⟨?_, hnamechain⟩
    intro y hy
    rintro ⟨-, hy2⟩
    cases hname2 : (posixParseDirName (normalizeSeps fp.data)).2 with
    | nil => rw [hname2] at hy; simp at hy
    | cons nh ntl =>
      rw [hname2] at hy
      simp only [List.head?_cons, Option.mem_def, Option.some.injEq] at hy
      exact hname nh (by rw [hname2]; exact List.mem_cons_self nh ntl) (hy.trans hy2)
  · have hpre : NoDoubleSlash ('.' :: '/' ::
        ((posixParseDirName (normalizeSeps fp.data)).1 ++
          '/' :: (posixParseDirName (normalizeSeps fp.data)).2)) := by
      rw [NoDoubleSlash, List.chain'_cons']
      constructor
      · intro y hy
        simp at hy
        rintro ⟨h, -⟩
        exact absurd h (by decide)
      rw [List.chain'_cons']
      constructor
      · intro y hy
        obtain ⟨hd, dtl, hdir_eq⟩ := List.exists_cons_of_ne_nil hne
        rw [hdir_eq] at hy
        simp only [List.cons_append, List.head?_cons, Option.mem_def, Option.some.injEq] at hy
        rintro ⟨-, hy2⟩
        refine hhead hd ?_ (hy.trans hy2)
        rw [hdir_eq]
        rfl
      rw [List.chain'_append]
      refine ⟨hnds, ?_, ?_⟩
      · rw [List.chain'_cons']
        refine ⟨?_, hnamechain⟩
        intro y hy
        rintro ⟨-, hy2⟩
        cases hname2 : (posixParseDirName (normalizeSeps fp.data)).2 with
        | nil => rw [hname2] at hy; simp at hy
        | cons nh ntl =>
          rw [hname2] at hy
          simp only [List.head?_cons, Option.mem_def, Option.some.injEq] at hy
          exact hname nh (by rw [hname2]; exact List.mem_cons_self nh ntl) (hy.trans hy2)
      · intro x hx y hy
        simp only [List.head?_cons, Option.mem_def, Option.some.injEq] at hy
        rintro ⟨hx2, -⟩
        exact hlast x hx hx2
    rw [collapseSlashes_eq_self _ hpre]
    exact hpre


/-- C2 (counterexample): `convertPathToRelativeImport` is not idempotent —
reapplying it to its own output `"./a/b"` prepends another `./` — and its
single-pass `//` collapsing leaves a double slash for inputs with three
consecutive slashes or a leading slash. -/
theorem convertPathToRelativeImport_claim_counterexample :
    convertPathToRelativeImport (convertPathToRelativeImport "a/b.ts") ≠
      convertPathToRelativeImport "a/b.ts" ∧
    ¬ NoDoubleSlash (convertPathToRelativeImport "a///b").data ∧
    ¬ NoDoubleSlash (convertPathToRelativeImport "/a").data := by
  refine ⟨by decide, by decide, by decide⟩

/-- C2 (amended): for every input, the output of `convertPathToRelativeImport`
starts with the literal prefix `./` and contains no backslash; and for inputs
that, after backslash normalization, contain no `//` and do not start with
`/` (as is the case for every `path.relative` result), the output also
contains no `//`.  Idempotence does not hold (see the counterexample). -/
theorem convertPathToRelativeImport_shape (fp : String) :
    (∃ t, (convertPathToRelativeImport fp).data = '.' :: '/' :: t) ∧
    '\\' ∉ (convertPathToRelativeImport fp).data ∧
    (NoDoubleSlash (normalizeSeps fp.data) → (normalizeSeps fp.data).head? ≠ some '/' →
      NoDoubleSlash (convertPathToRelativeImport fp).data) :=
  ⟨convert_starts_dot_slash fp, convert_no_backslash fp,
    fun hh1 hh2 => convert_noDoubleSlash fp hh1 hh2⟩

/-- C2 (witness): the double-slash-freedom guarantee applied to a
backslash-separated relative input. -/
theorem convertPathToRelativeImport_shape_witness :
    NoDoubleSlash (normalizeSeps ("..\\foo\\bar.ts").data) ∧
    (normalizeSeps ("..\\foo\\bar.ts").data).head? ≠ some '/' ∧
    NoDoubleSlash (convertPathToRelativeImport "..\\foo\\bar.ts").data :=
  ⟨by decide, by decide,
    (convertPathToRelativeImport_shape "..\\foo\\bar.ts").2.2 (by decide) (by decide)⟩
